import Mathlib

/-! Verification of the message-bus core of this repository
(nautilus_core/common/src/msgbus.rs): the wildcard topic matcher
(is_matching), the subscription registry with its pattern cache, the
endpoint registry, and the request/response correlation index
(MessageBus and its operations).

Topics, patterns, endpoint names and handler identifiers are strings;
topics and patterns are modelled as lists of characters (the matcher
walks characters), other strings as String.  Rust u8 priorities become
Nat (no arithmetic is performed on them), UUID4 request identifiers
become Nat (only equality is used). -/

namespace Msgbus

/-- Glob matching semantics, stated from the specification's words: a
star matches zero or more arbitrary characters, a question mark matches
exactly one arbitrary character, and any other pattern character
matches exactly itself, case-sensitively. -/
inductive Matches : List Char → List Char → Prop where
  | nil : Matches [] []
  | wildOne (c : Char) {t p : List Char} : Matches t p → Matches (c :: t) ('?' :: p)
  | lit {c : Char} (h1 : c ≠ '*') (h2 : c ≠ '?') {t p : List Char} :
      Matches t p → Matches (c :: t) (c :: p)
  | star (s : List Char) {t p : List Char} : Matches t p → Matches (s ++ t) ('*' :: p)

/-- The boolean dynamic-programming table of the source's is_matching,
expressed as the recurrence the nested loops implement: dp t p i j is
the cell table i j after the fill, i.e. whether the first i characters
of the topic match the first j characters of the pattern; cells never
written by any loop iteration keep their initial value false, which the
out-of-range List lookups reproduce. -/
def dp (t p : List Char) : Nat → Nat → Bool
  | 0, 0 => true
  | 0, j+1 => if p[j]? = some '*' then dp t p 0 j else false
  | _+1, 0 => false
  | i+1, j+1 =>
    match p[j]?, t[i]? with
    | some pc, some tc =>
      if pc = '*' then dp t p i (j+1) || dp t p (i+1) j
      else if pc = '?' ∨ tc = pc then dp t p i j
      else false
    | _, _ => false
  termination_by i j => (i, j)

/-- The total matching function computed by the source's table: whether
the whole topic matches the whole pattern.  On ASCII inputs short
enough for the fixed table this is exactly what is_matching returns. -/
def matchB (t p : List Char) : Bool := dp t p t.length p.length

/-- Number of bytes of the UTF-8 encoding of a string, as the source's
Ustr len computes it; the matcher indexes its fixed table with byte
lengths while filling it at character positions. -/
def byteLen (s : List Char) : Nat := (s.map Char.utf8Size).sum

/-- Embeds the source's is_matching.  The Rust allocates a fixed
256 x 256 boolean table on the stack; the final read of the cell at
(byte length of topic, byte length of pattern) is out of bounds, and
the process panics, whenever either byte length exceeds 255.  The
panic is modelled as none. -/
def is_matching (t p : List Char) : Option Bool :=
  if byteLen t ≤ 255 ∧ byteLen p ≤ 255 then some (dp t p (byteLen t) (byteLen p)) else none

/-- Opaque handler capability (handlers.rs MessageHandler): the core
uses only its stable identifier for equality and hashing; the concrete
callbacks live in the collaborator layer and are not modelled. -/
structure MessageHandler where
  handler_id : String
  deriving DecidableEq

/-- A subscription to a topic (msgbus.rs Subscription).  PartialEq and
Hash for Subscription use only the pair (topic, handler.handler_id);
priority is deliberately excluded from identity.  Ord compares
priorities only. -/
structure Subscription where
  handler : MessageHandler
  topic : List Char
  priority : Nat
  deriving DecidableEq

def Subscription.new (topic : List Char) (handler : MessageHandler)
    (priority : Option Nat) : Subscription :=
  ⟨handler, topic, priority.getD 0⟩

/-- The equality used by the subscriptions HashMap and the HashSet in
matching_subscriptions: PartialEq for Subscription. -/
def sameKey (a b : Subscription) : Bool :=
  a.topic == b.topic && a.handler.handler_id == b.handler.handler_id

/-- Ord for Subscription: compares only the priorities. -/
def prioLE (a b : Subscription) : Prop := a.priority ≤ b.priority

/-- Strict priority order, used to state uniqueness of the sorted
output when priorities are pairwise distinct. -/
def prioLT (a b : Subscription) : Prop := a.priority < b.priority

instance : DecidableRel prioLE := fun a b => Nat.decLe a.priority b.priority

instance : IsTotal Subscription prioLE := ⟨fun a b => Nat.le_total a.priority b.priority⟩

instance : IsTrans Subscription prioLE := ⟨fun _ _ _ => Nat.le_trans⟩

instance : IsAntisymm Subscription prioLT :=
  ⟨fun _ _ g1 g2 => absurd (Nat.lt_trans g1 g2) (Nat.lt_irrefl _)⟩

/-- Vec sort through Ord for Subscription: a stable sort in ascending
priority order. -/
def sortByPriority (l : List Subscription) : List Subscription :=
  List.insertionSort prioLE l

/-- Deduplication performed by inserting into a HashSet keyed by
Subscription equality: of several key-equal entries the first inserted
one is kept. -/
def dedupKeys : List Subscription → List Subscription
  | [] => []
  | s :: rest => s :: dedupKeys (rest.filter (fun x => !(sameKey x s)))
  termination_by l => l.length
  decreasing_by
    simp only [List.length_cons]
    exact Nat.lt_succ_of_le (List.length_filter_le _ _)

/-- Replacement insert into an association list, modelling
HashMap insert: an existing key keeps its position and gets the new
value, a new key is appended. -/
def insertA {α β : Type} [BEq α] (l : List (α × β)) (k : α) (v : β) : List (α × β) :=
  if l.any (fun e => e.1 == k) then l.map (fun e => if e.1 == k then (k, v) else e)
  else l ++ [(k, v)]

/-- Lookup in an association list, modelling HashMap get. -/
def lookupA {α β : Type} [BEq α] : List (α × β) → α → Option β
  | [], _ => none
  | e :: es, k => if e.1 == k then some e.2 else lookupA es k

/-- Runs the source's is_matching over every subscription of a list and
collects the matching ones, as the filter_map inside
matching_subscriptions does.  Every element is evaluated (the iterator
is drained into the HashSet), so the call panics — none here — exactly
when some evaluated is_matching call panics, whatever the iteration
order. -/
def filterMatchingM (pattern : List Char) : List Subscription → Option (List Subscription)
  | [] => some []
  | s :: rest =>
    match is_matching s.topic pattern, filterMatchingM pattern rest with
    | some b, some l => some (if b then s :: l else l)
    | _, _ => none

/-- Runs the source's is_matching over the subscriptions until the
first match, as matching_handlers(...).next() does: the iterator is
lazy, so evaluation stops at the first subscription that matches, and
panics — none — if a panicking call is reached first.  The list order
stands in for the HashMap iteration order; the some-false result
asserted by the theorems requires draining the whole list and is
therefore iteration-order independent. -/
def anyMatchingM (pattern : List Char) : List Subscription → Option Bool
  | [] => some false
  | s :: rest =>
    match is_matching s.topic pattern with
    | none => none
    | some true => some true
    | some false => anyMatchingM pattern rest

/-- The message bus state (msgbus.rs MessageBus).  The four HashMaps
are modelled as association lists; map iteration order is not
observable in Rust, which the order-independence theorems account for
by quantifying over permutations. -/
structure MessageBus where
  trader_id : String
  name : String
  subscriptions : List (Subscription × List (List Char))
  patterns : List (List Char × List Subscription)
  endpoints : List (String × MessageHandler)
  correlation_index : List (Nat × MessageHandler)
  deriving DecidableEq

namespace MessageBus

def new (trader_id : String) (name : Option String) : MessageBus :=
  ⟨trader_id, name.getD "MessageBus", [], [], [], []⟩

/-- The endpoints() accessor: registered endpoint names. -/
def endpoint_names (bus : MessageBus) : List String := bus.endpoints.map Prod.fst

/-- The topics() accessor: topics of active subscriptions. -/
def topics (bus : MessageBus) : List (List Char) :=
  bus.subscriptions.map (fun e => e.1.topic)

/-- has_subscribers: whether matching_handlers yields anything, i.e.
some subscription topic matches the pattern.  Each probe calls the
source's fixed-table is_matching, so the query itself panics — none —
when a probed call overruns the table before a match is found. -/
def has_subscribers (bus : MessageBus) (pattern : List Char) : Option Bool :=
  anyMatchingM pattern (bus.subscriptions.map Prod.fst)

/-- is_subscribed: exact-key membership in the subscriptions map. -/
def is_subscribed (bus : MessageBus) (topic : List Char) (handler : MessageHandler) : Bool :=
  bus.subscriptions.any (fun e => sameKey e.1 (Subscription.new topic handler none))

def is_pending_response (bus : MessageBus) (request_id : Nat) : Bool :=
  bus.correlation_index.any (fun e => e.1 == request_id)

def is_registered (bus : MessageBus) (endpoint : String) : Bool :=
  bus.endpoints.any (fun e => e.1 == endpoint)

/-- register: upsert into the endpoints map. -/
def register (bus : MessageBus) (endpoint : String) (handler : MessageHandler) : MessageBus :=
  { bus with endpoints := insertA bus.endpoints endpoint handler }

/-- deregister: remove from the endpoints map, no-op when absent. -/
def deregister (bus : MessageBus) (endpoint : String) : MessageBus :=
  { bus with endpoints := bus.endpoints.filter (fun e => !(e.1 == endpoint)) }

def get_endpoint (bus : MessageBus) (endpoint : String) : Option MessageHandler :=
  lookupA bus.endpoints endpoint

/-- subscribe: a no-op when the (topic, handler id) key exists
(the Rust returns without signalling); otherwise every already cached
pattern list whose pattern matches the topic is extended and re-sorted,
and the new subscription is stored with the list of patterns it
matched. -/
def subscribe (bus : MessageBus) (topic : List Char) (handler : MessageHandler)
    (priority : Option Nat) : MessageBus :=
  let sub := Subscription.new topic handler priority
  if bus.subscriptions.any (fun e => sameKey e.1 sub) then bus
  else
    { bus with
      patterns := bus.patterns.map (fun e =>
        if matchB topic e.1 then (e.1, sortByPriority (e.2 ++ [sub])) else e),
      subscriptions := bus.subscriptions ++
        [(sub, (bus.patterns.filter (fun e => matchB topic e.1)).map Prod.fst)] }

/-- unsubscribe: removes only the exact key from the subscriptions
map; the pattern cache is not touched. -/
def unsubscribe (bus : MessageBus) (topic : List Char) (handler : MessageHandler) : MessageBus :=
  let sub := Subscription.new topic handler none
  { bus with subscriptions := bus.subscriptions.filter (fun e => !(sameKey e.1 sub)) }

/-- request_handler: on a registered endpoint inserts the request id
into the correlation index and returns the handler; otherwise returns
none and leaves the state untouched. -/
def request_handler (bus : MessageBus) (endpoint : String) (request_id : Nat) :
    Option MessageHandler × MessageBus :=
  match lookupA bus.endpoints endpoint with
  | some h => (some h, { bus with correlation_index := insertA bus.correlation_index request_id h })
  | none => (none, bus)

/-- response_handler: removes and returns the correlation entry. -/
def response_handler (bus : MessageBus) (correlation_id : Nat) :
    Option MessageHandler × MessageBus :=
  (lookupA bus.correlation_index correlation_id,
   { bus with correlation_index :=
      bus.correlation_index.filter (fun e => !(e.1 == correlation_id)) })

/-- matching_subscriptions: a HashSet union of the directly matching
subscriptions and the matching entries of every cached pattern list,
sorted into priority order.  Every union member is probed with the
source's fixed-table is_matching, so the call panics — none — whenever
any stored topic (or the pattern, against any stored topic) overruns
the table.  The Rust signature borrows the bus mutably but the body
only reads, so the returned state is the input state, panic included
(a panic mutates nothing). -/
def matching_subscriptions (bus : MessageBus) (pattern : List Char) :
    Option (List Subscription) × MessageBus :=
  (match filterMatchingM pattern (bus.subscriptions.map Prod.fst),
         filterMatchingM pattern ((bus.patterns.map Prod.snd).flatten) with
   | some l1, some l2 => some (sortByPriority (dedupKeys (l1 ++ l2)))
   | _, _ => none,
   bus)

end MessageBus

/-- States reachable from a fresh bus by the public operations. -/
inductive Reachable : MessageBus → Prop where
  | new (trader_id : String) (name : Option String) :
      Reachable (MessageBus.new trader_id name)
  | subscribe {bus : MessageBus} (topic : List Char) (handler : MessageHandler)
      (priority : Option Nat) :
      Reachable bus → Reachable (bus.subscribe topic handler priority)
  | unsubscribe {bus : MessageBus} (topic : List Char) (handler : MessageHandler) :
      Reachable bus → Reachable (bus.unsubscribe topic handler)
  | register {bus : MessageBus} (endpoint : String) (handler : MessageHandler) :
      Reachable bus → Reachable (bus.register endpoint handler)
  | deregister {bus : MessageBus} (endpoint : String) :
      Reachable bus → Reachable (bus.deregister endpoint)
  | request {bus : MessageBus} (endpoint : String) (request_id : Nat) :
      Reachable bus → Reachable (bus.request_handler endpoint request_id).2
  | response {bus : MessageBus} (correlation_id : Nat) :
      Reachable bus → Reachable (bus.response_handler correlation_id).2

/-- Master inversion: a derivation of Matches tt pp ends in one of the
four constructors, with the indices spelled out as equations. -/
theorem matches_cases {tt pp : List Char} (h : Matches tt pp) :
    (tt = [] ∧ pp = []) ∨
    (∃ c t p, tt = c :: t ∧ pp = '?' :: p ∧ Matches t p) ∨
    (∃ c t p, c ≠ '*' ∧ c ≠ '?' ∧ tt = c :: t ∧ pp = c :: p ∧ Matches t p) ∨
    (∃ s t p, tt = s ++ t ∧ pp = '*' :: p ∧ Matches t p) := by
  cases h with
  | nil => exact Or.inl ⟨rfl, rfl⟩
  | wildOne c h' => exact Or.inr (Or.inl ⟨c, _, _, rfl, rfl, h'⟩)
  | lit h1 h2 h' => exact Or.inr (Or.inr (Or.inl ⟨_, _, _, h1, h2, rfl, rfl, h'⟩))
  | star s h' => exact Or.inr (Or.inr (Or.inr ⟨s, _, _, rfl, rfl, h'⟩))

theorem nil_star_iff {p : List Char} : Matches [] ('*' :: p) ↔ Matches [] p := by
  constructor
  · intro h
    rcases matches_cases h with ⟨_, hp⟩ | ⟨c, t', p', _, hp, _⟩ |
      ⟨c, t', p', hc, _, _, hp, _⟩ | ⟨s, t', p', htt, hp, h'⟩
    · exact absurd hp (by simp)
    · exact absurd hp (by simp)
    · rw [List.cons.injEq] at hp
      exact absurd hp.1.symm hc
    · rcases List.append_eq_nil.mp htt.symm with ⟨rfl, rfl⟩
      rw [List.cons.injEq] at hp
      rw [hp.2]
      exact h'
  · intro h
    simpa using Matches.star [] h

theorem nil_cons_star {c : Char} {p : List Char} (h : Matches [] (c :: p)) : c = '*' := by
  rcases matches_cases h with ⟨_, hp⟩ | ⟨c', t', p', htt, _, _⟩ |
    ⟨c', t', p', _, _, htt, _, _⟩ | ⟨s, t', p', _, hp, _⟩
  · exact absurd hp (by simp)
  · exact absurd htt (by simp)
  · exact absurd htt (by simp)
  · rw [List.cons.injEq] at hp
    exact hp.1

theorem not_cons_nil {c : Char} {t : List Char} : ¬ Matches (c :: t) [] := by
  intro h
  rcases matches_cases h with ⟨htt, _⟩ | ⟨c', t', p', _, hp, _⟩ |
    ⟨c', t', p', _, _, _, hp, _⟩ | ⟨s, t', p', _, hp, _⟩
  · exact absurd htt (by simp)
  · exact absurd hp (by simp)
  · exact absurd hp (by simp)
  · exact absurd hp (by simp)

theorem cons_qm_iff {tc : Char} {t p : List Char} :
    Matches (tc :: t) ('?' :: p) ↔ Matches t p := by
  constructor
  · intro h
    rcases matches_cases h with ⟨htt, _⟩ | ⟨c', t', p', htt, hp, h'⟩ |
      ⟨c', t', p', _, hc, _, hp, _⟩ | ⟨s, t', p', _, hp, _⟩
    · exact absurd htt (by simp)
    · rw [List.cons.injEq] at htt hp
      rw [htt.2, hp.2]
      exact h'
    · rw [List.cons.injEq] at hp
      exact absurd hp.1.symm hc
    · rw [List.cons.injEq] at hp
      exact absurd hp.1.symm (by simp)
  · exact Matches.wildOne tc

theorem cons_lit_iff {tc pc : Char} {t p : List Char} (h1 : pc ≠ '*') (h2 : pc ≠ '?') :
    Matches (tc :: t) (pc :: p) ↔ tc = pc ∧ Matches t p := by
  constructor
  · intro h
    rcases matches_cases h with ⟨htt, _⟩ | ⟨c', t', p', htt, hp, h'⟩ |
      ⟨c', t', p', _, _, htt, hp, h'⟩ | ⟨s, t', p', _, hp, _⟩
    · exact absurd htt (by simp)
    · rw [List.cons.injEq] at hp
      exact absurd hp.1 h2
    · rw [List.cons.injEq] at htt hp
      refine ⟨by rw [htt.1, hp.1], ?_⟩
      rw [htt.2, hp.2]
      exact h'
    · rw [List.cons.injEq] at hp
      exact absurd hp.1 h1
  · rintro ⟨rfl, h⟩
    exact Matches.lit h1 h2 h

theorem cons_star_iff {tc : Char} {t p : List Char} :
    Matches (tc :: t) ('*' :: p) ↔ Matches t ('*' :: p) ∨ Matches (tc :: t) p := by
  constructor
  · intro h
    rcases matches_cases h with ⟨htt, _⟩ | ⟨c', t', p', _, hp, _⟩ |
      ⟨c', t', p', hc, _, _, hp, _⟩ | ⟨s, t', p', htt, hp, h'⟩
    · exact absurd htt (by simp)
    · exact absurd hp (by simp [List.cons.injEq])
    · rw [List.cons.injEq] at hp
      exact absurd hp.1.symm hc
    · rw [List.cons.injEq] at hp
      cases s with
      | nil =>
        right
        simp only [List.nil_append] at htt
        rw [← htt, ← hp.2] at h'
        exact h'
      | cons c s' =>
        left
        rw [List.cons_append, List.cons.injEq] at htt
        rw [htt.2, hp.2]
        exact Matches.star s' h'
  · intro h
    rcases h with h | h
    · rcases matches_cases h with ⟨_, hpp⟩ | ⟨c', t', p', _, hp, _⟩ |
        ⟨c', t', p', hc, _, _, hp, _⟩ | ⟨s, t', p', htt, hp, h'⟩
      · exact absurd hpp (by simp)
      · exact absurd hp (by simp [List.cons.injEq])
      · rw [List.cons.injEq] at hp
        exact absurd hp.1.symm hc
      · rw [List.cons.injEq] at hp
        rw [htt, hp.2]
        have := Matches.star (tc :: s) h'
        simpa using this
    · simpa using Matches.star [] h

theorem matches_snoc_qm (c : Char) {t p : List Char} (h : Matches t p) :
    Matches (t ++ [c]) (p ++ ['?']) := by
  induction h with
  | nil => simpa using Matches.wildOne c Matches.nil
  | wildOne c' h' ih => exact Matches.wildOne c' ih
  | lit h1 h2 h' ih => exact Matches.lit h1 h2 ih
  | star s h' ih =>
    rw [List.cons_append, List.append_assoc]
    exact Matches.star s ih

theorem matches_snoc_lit {c : Char} (h1 : c ≠ '*') (h2 : c ≠ '?') {t p : List Char}
    (h : Matches t p) : Matches (t ++ [c]) (p ++ [c]) := by
  induction h with
  | nil => simpa using Matches.lit h1 h2 Matches.nil
  | wildOne c' h' ih => exact Matches.wildOne c' ih
  | lit g1 g2 h' ih => exact Matches.lit g1 g2 ih
  | star s h' ih =>
    rw [List.cons_append, List.append_assoc]
    exact Matches.star s ih

theorem matches_snoc_star (s : List Char) {t p : List Char} (h : Matches t p) :
    Matches (t ++ s) (p ++ ['*']) := by
  induction h with
  | nil => simpa using Matches.star s Matches.nil
  | wildOne c' h' ih => exact Matches.wildOne c' ih
  | lit h1 h2 h' ih => exact Matches.lit h1 h2 ih
  | star s0 h' ih =>
    rw [List.cons_append, List.append_assoc]
    exact Matches.star s0 ih

theorem matches_reverse {t p : List Char} (h : Matches t p) :
    Matches t.reverse p.reverse := by
  induction h with
  | nil => exact Matches.nil
  | wildOne c h' ih =>
    rw [List.reverse_cons, List.reverse_cons]
    exact matches_snoc_qm c ih
  | lit h1 h2 h' ih =>
    rw [List.reverse_cons, List.reverse_cons]
    exact matches_snoc_lit h1 h2 ih
  | star s h' ih =>
    rw [List.reverse_append, List.reverse_cons]
    exact matches_snoc_star s.reverse ih

theorem matches_reverse_iff {t p : List Char} :
    Matches t.reverse p.reverse ↔ Matches t p := by
  constructor
  · intro h
    simpa using matches_reverse h
  · exact matches_reverse

theorem dp_zero_zero (t p : List Char) : dp t p 0 0 = true := by
  rw [dp]

theorem dp_zero_succ (t p : List Char) (j : Nat) :
    dp t p 0 (j+1) = if p[j]? = some '*' then dp t p 0 j else false := by
  rw [dp]

theorem dp_succ_zero (t p : List Char) (i : Nat) : dp t p (i+1) 0 = false := by
  rw [dp]

theorem dp_succ_succ (t p : List Char) (i j : Nat) :
    dp t p (i+1) (j+1) =
      match p[j]?, t[i]? with
      | some pc, some tc =>
        if pc = '*' then dp t p i (j+1) || dp t p (i+1) j
        else if pc = '?' ∨ tc = pc then dp t p i j
        else false
      | _, _ => false := by
  rw [dp]

theorem dp_succ_succ_star {t p : List Char} {i j : Nat} {tc : Char}
    (htc : t[i]? = some tc) (hpc : p[j]? = some '*') :
    dp t p (i+1) (j+1) = (dp t p i (j+1) || dp t p (i+1) j) := by
  rw [dp_succ_succ, hpc, htc]
  dsimp only
  rw [if_pos rfl]

theorem dp_succ_succ_qm {t p : List Char} {i j : Nat} {tc : Char}
    (htc : t[i]? = some tc) (hpc : p[j]? = some '?') :
    dp t p (i+1) (j+1) = dp t p i j := by
  rw [dp_succ_succ, hpc, htc]
  dsimp only
  rw [if_neg (by decide), if_pos (Or.inl rfl)]

theorem dp_succ_succ_lit {t p : List Char} {i j : Nat} {tc pc : Char}
    (htc : t[i]? = some tc) (hpc : p[j]? = some pc)
    (h1 : pc ≠ '*') (h2 : pc ≠ '?') :
    dp t p (i+1) (j+1) = if tc = pc then dp t p i j else false := by
  rw [dp_succ_succ, hpc, htc]
  dsimp only
  rw [if_neg h1]
  by_cases heq : tc = pc
  · rw [if_pos (Or.inr heq), if_pos heq]
  · rw [if_neg (fun h => h.elim h2 heq), if_neg heq]

theorem take_succ_reverse {l : List Char} {j : Nat} {c : Char} (h : l[j]? = some c) :
    (l.take (j+1)).reverse = c :: (l.take j).reverse := by
  rw [List.take_succ, h]
  simp

theorem dp_iff_matches_aux (t p : List Char) :
    ∀ n i j, i + j ≤ n → i ≤ t.length → j ≤ p.length →
      (dp t p i j = true ↔ Matches ((t.take i).reverse) ((p.take j).reverse)) := by
  intro n
  induction n with
  | zero =>
    intro i j hn hi hj
    have hi0 : i = 0 := by omega
    have hj0 : j = 0 := by omega
    subst hi0; subst hj0
    rw [dp_zero_zero]
    simp only [List.take_zero, List.reverse_nil, true_iff]
    exact Matches.nil
  | succ n ih =>
    intro i j hn hi hj
    match i, j with
    | 0, 0 =>
      rw [dp_zero_zero]
      simp only [List.take_zero, List.reverse_nil, true_iff]
      exact Matches.nil
    | 0, j+1 =>
      have hj' : j < p.length := by omega
      obtain ⟨pc, hpc⟩ : ∃ c, p[j]? = some c := ⟨p[j], by simp [hj']⟩
      rw [take_succ_reverse hpc]
      by_cases hstar : pc = '*'
      · subst hstar
        rw [dp_zero_succ, if_pos hpc]
        rw [ih 0 j (by omega) (by omega) (by omega)]
        simp only [List.take_zero, List.reverse_nil]
        exact (nil_star_iff).symm
      · rw [dp_zero_succ, if_neg (by rw [hpc]; simp [hstar])]
        simp only [List.take_zero, List.reverse_nil]
        refine iff_of_false (by simp) ?_
        intro h
        exact hstar (nil_cons_star h)
    | i+1, 0 =>
      have hi' : i < t.length := by omega
      obtain ⟨tc, htc⟩ : ∃ c, t[i]? = some c := ⟨t[i], by simp [hi']⟩
      rw [take_succ_reverse htc, dp_succ_zero]
      simp only [List.take_zero, List.reverse_nil]
      exact iff_of_false (by simp) not_cons_nil
    | i+1, j+1 =>
      have hi' : i < t.length := by omega
      have hj' : j < p.length := by omega
      obtain ⟨tc, htc⟩ : ∃ c, t[i]? = some c := ⟨t[i], by simp [hi']⟩
      obtain ⟨pc, hpc⟩ : ∃ c, p[j]? = some c := ⟨p[j], by simp [hj']⟩
      rw [take_succ_reverse htc, take_succ_reverse hpc]
      by_cases hstar : pc = '*'
      · subst hstar
        rw [dp_succ_succ_star htc hpc]
        rw [cons_star_iff]
        have h1 := ih i (j+1) (by omega) (by omega) (by omega)
        have h2 := ih (i+1) j (by omega) (by omega) (by omega)
        rw [take_succ_reverse hpc] at h1
        rw [take_succ_reverse htc] at h2
        rw [Bool.or_eq_true, h1, h2]
      · by_cases hqm : pc = '?'
        · subst hqm
          rw [dp_succ_succ_qm htc hpc]
          rw [cons_qm_iff]
          exact ih i j (by omega) (by omega) (by omega)
        · rw [dp_succ_succ_lit htc hpc hstar hqm]
          rw [cons_lit_iff hstar hqm]
          have h1 := ih i j (by omega) (by omega) (by omega)
          by_cases heq : tc = pc
          · rw [if_pos heq, h1]
            simp [heq]
          · rw [if_neg heq]
            refine iff_of_false (by simp) ?_
            intro h
            exact heq h.1

theorem matchB_iff {t p : List Char} : matchB t p = true ↔ Matches t p := by
  have h := dp_iff_matches_aux t p (t.length + p.length) t.length p.length le_rfl le_rfl le_rfl
  rw [List.take_length, List.take_length] at h
  rw [matchB, h, matches_reverse_iff]

theorem byteLen_eq_length {s : List Char} (h : ∀ c ∈ s, c.utf8Size = 1) :
    byteLen s = s.length := by
  induction s with
  | nil => rfl
  | cons c cs ih =>
    have hc : c.utf8Size = 1 := h c (List.mem_cons_self c cs)
    have ih' := ih (fun x hx => h x (List.mem_cons_of_mem c hx))
    simp [byteLen] at ih' ⊢
    omega

theorem matches_star_any (s : List Char) : Matches s ['*'] := by
  simpa using Matches.star s Matches.nil

theorem matches_lit_self {s : List Char} (h : ∀ c ∈ s, c ≠ '*' ∧ c ≠ '?') :
    Matches s s := by
  induction s with
  | nil => exact Matches.nil
  | cons c cs ih =>
    have hc := h c (List.mem_cons_self c cs)
    exact Matches.lit hc.1 hc.2 (ih (fun x hx => h x (List.mem_cons_of_mem c hx)))

theorem matches_self (s : List Char) : Matches s s := by
  induction s with
  | nil => exact Matches.nil
  | cons c cs ih =>
    by_cases hstar : c = '*'
    · subst hstar
      simpa using Matches.star ['*'] ih
    · by_cases hqm : c = '?'
      · subst hqm
        exact Matches.wildOne _ ih
      · exact Matches.lit hstar hqm ih

theorem matches_append {t1 p1 t2 p2 : List Char} (h1 : Matches t1 p1)
    (h2 : Matches t2 p2) : Matches (t1 ++ t2) (p1 ++ p2) := by
  induction h1 with
  | nil => simpa using h2
  | wildOne c h ih => exact Matches.wildOne c ih
  | lit g1 g2 h ih => exact Matches.lit g1 g2 ih
  | star s h ih =>
    rw [List.cons_append, List.append_assoc]
    exact Matches.star s ih

theorem is_matching_eq_matchB {t p : List Char}
    (ht : ∀ c ∈ t, c.utf8Size = 1) (hp : ∀ c ∈ p, c.utf8Size = 1)
    (h1 : t.length ≤ 255) (h2 : p.length ≤ 255) :
    is_matching t p = some (matchB t p) := by
  rw [is_matching, byteLen_eq_length ht, byteLen_eq_length hp, if_pos ⟨h1, h2⟩]
  rfl

/-- Structural invariant of every reachable state: no operation ever
inserts a key into the pattern cache, so it stays empty; consequently
every stored list of matched patterns is empty; and the subscriptions
map, being a HashMap, holds pairwise distinct keys. -/
theorem reachable_inv {bus : MessageBus} (h : Reachable bus) :
    bus.patterns = [] ∧ (∀ e ∈ bus.subscriptions, e.2 = ([] : List (List Char))) ∧
    bus.subscriptions.Pairwise (fun a b => sameKey a.1 b.1 = false) := by
  induction h with
  | new trader name => simp [MessageBus.new]
  | subscribe topic handler priority hr ih =>
    rename_i bus
    simp only [MessageBus.subscribe]
    by_cases hg : bus.subscriptions.any
        (fun e => sameKey e.1 (Subscription.new topic handler priority)) = true
    · rw [if_pos hg]
      exact ih
    · rw [if_neg hg]
      simp only [List.any_eq_true, not_exists, not_and, Bool.not_eq_true] at hg
      refine ⟨by simp [ih.1], ?_, ?_⟩
      · intro e he
        rcases List.mem_append.mp he with h1 | h2
        · exact ih.2.1 e h1
        · simp only [ih.1, List.filter_nil, List.map_nil, List.mem_singleton] at h2
          rw [h2]
      · rw [List.pairwise_append]
        refine ⟨ih.2.2, List.pairwise_singleton _ _, ?_⟩
        intro a ha b hb
        simp only [List.mem_singleton] at hb
        rw [hb]
        exact hg a ha
  | unsubscribe topic handler hr ih =>
    simp only [MessageBus.unsubscribe]
    refine ⟨ih.1, ?_, ?_⟩
    · intro e he
      exact ih.2.1 e (List.mem_of_mem_filter he)
    · exact List.Pairwise.sublist (List.filter_sublist _) ih.2.2
  | register endpoint handler hr ih => exact ih
  | deregister endpoint hr ih => exact ih
  | request endpoint request_id hr ih =>
    rename_i bus
    rcases hl : lookupA bus.endpoints endpoint with _ | hh
    · simpa [MessageBus.request_handler, hl] using ih
    · simpa [MessageBus.request_handler, hl] using ih
  | response correlation_id hr ih =>
    simpa [MessageBus.response_handler] using ih

theorem sameKey_comm (a b : Subscription) : sameKey a b = sameKey b a := by
  simp only [sameKey]
  rw [Bool.eq_iff_iff]
  simp only [Bool.and_eq_true, beq_iff_eq]
  constructor
  · rintro ⟨h1, h2⟩
    exact ⟨h1.symm, h2.symm⟩
  · rintro ⟨h1, h2⟩
    exact ⟨h1.symm, h2.symm⟩

theorem dedupKeys_eq_self {l : List Subscription}
    (h : l.Pairwise (fun a b => sameKey a b = false)) : dedupKeys l = l := by
  induction l with
  | nil => rw [dedupKeys]
  | cons s rest ih =>
    rw [dedupKeys]
    rw [List.pairwise_cons] at h
    have hf : rest.filter (fun x => !(sameKey x s)) = rest := by
      apply List.filter_eq_self.mpr
      intro x hx
      simp [sameKey_comm x s, h.1 x hx]
    rw [hf, ih h.2]

theorem option_getD_false_iff {o : Option Bool} : o.getD false = true ↔ o = some true := by
  cases o <;> simp

theorem filterMatchingM_sublist {pattern : List Char} :
    ∀ {l l' : List Subscription}, filterMatchingM pattern l = some l' → l'.Sublist l := by
  intro l
  induction l with
  | nil =>
    intro l' h
    rw [filterMatchingM, Option.some_inj] at h
    rw [← h]
  | cons s rest ih =>
    intro l' h
    rw [filterMatchingM] at h
    split at h
    · rename_i b l heq1 heq2
      rw [Option.some_inj] at h
      rw [← h]
      cases b
      · simp only [Bool.false_eq_true, if_false]
        exact List.Sublist.cons s (ih heq2)
      · simp only [if_true]
        exact List.Sublist.cons₂ s (ih heq2)
    · exact absurd h (by simp)

theorem filterMatchingM_eq_of_safe {pattern : List Char} (hp : byteLen pattern ≤ 255) :
    ∀ {l : List Subscription}, (∀ s ∈ l, byteLen s.topic ≤ 255) →
      filterMatchingM pattern l =
        some (l.filter (fun s => (is_matching s.topic pattern).getD false)) := by
  intro l
  induction l with
  | nil =>
    intro _
    rfl
  | cons s rest ih =>
    intro h
    have hs : is_matching s.topic pattern =
        some (dp s.topic pattern (byteLen s.topic) (byteLen pattern)) := by
      rw [is_matching, if_pos ⟨h s (List.mem_cons_self s rest), hp⟩]
    rw [filterMatchingM, hs, ih (fun x hx => h x (List.mem_cons_of_mem s hx))]
    rw [List.filter_cons, hs]
    dsimp only [Option.getD]

theorem anyMatchingM_eq_false {pattern : List Char} :
    ∀ {l : List Subscription}, (∀ s ∈ l, is_matching s.topic pattern = some false) →
      anyMatchingM pattern l = some false := by
  intro l
  induction l with
  | nil =>
    intro _
    rfl
  | cons s rest ih =>
    intro h
    rw [anyMatchingM, h s (List.mem_cons_self s rest)]
    exact ih (fun x hx => h x (List.mem_cons_of_mem s hx))

/-- On every reachable state the pattern cache contributes nothing and
the HashSet deduplication removes nothing, so matching_subscriptions —
panic included — is exactly the priority-sorted linear scan of the
subscription set by the source's matcher. -/
theorem matching_subscriptions_eq_scan {bus : MessageBus} (h : Reachable bus)
    (pattern : List Char) :
    (bus.matching_subscriptions pattern).1 =
      Option.map sortByPriority
        (filterMatchingM pattern (bus.subscriptions.map Prod.fst)) := by
  have hinv := reachable_inv h
  have h2 : filterMatchingM pattern ((bus.patterns.map Prod.snd).flatten) = some [] := by
    rw [hinv.1]
    rfl
  simp only [MessageBus.matching_subscriptions]
  rw [h2]
  cases hf : filterMatchingM pattern (bus.subscriptions.map Prod.fst) with
  | none => rfl
  | some l1 =>
    dsimp only [Option.map]
    have hp : (bus.subscriptions.map Prod.fst).Pairwise
        (fun a b => sameKey a b = false) := by
      rw [List.pairwise_map]
      exact hinv.2.2
    rw [List.append_nil,
      dedupKeys_eq_self (List.Pairwise.sublist (filterMatchingM_sublist hf) hp)]

theorem any_eq_false_forall {α : Type} {p : α → Bool} {l : List α} (h : l.any p = false) :
    ∀ x ∈ l, p x = false := by
  intro x hx
  cases hpx : p x
  · rfl
  · exfalso
    have htrue : l.any p = true := List.any_eq_true.mpr ⟨x, hx, hpx⟩
    rw [h] at htrue
    exact Bool.false_ne_true htrue

theorem subscribe_of_key_present {bus : MessageBus} {topic : List Char}
    {handler : MessageHandler} {priority : Option Nat}
    (h : bus.subscriptions.any
      (fun e => sameKey e.1 (Subscription.new topic handler priority)) = true) :
    bus.subscribe topic handler priority = bus := by
  simp only [MessageBus.subscribe]
  rw [if_pos h]

theorem subscribe_subscriptions {bus : MessageBus} {topic : List Char}
    {handler : MessageHandler} {priority : Option Nat}
    (h : bus.subscriptions.any
      (fun e => sameKey e.1 (Subscription.new topic handler priority)) = false) :
    (bus.subscribe topic handler priority).subscriptions =
      bus.subscriptions ++ [(Subscription.new topic handler priority,
        (bus.patterns.filter (fun e => matchB topic e.1)).map Prod.fst)] := by
  simp only [MessageBus.subscribe]
  rw [if_neg (by rw [h]; exact Bool.false_ne_true)]

theorem lookupA_eq_none {α β : Type} [BEq α] {l : List (α × β)} {k : α}
    (h : ∀ x ∈ l, (x.1 == k) = false) : lookupA l k = none := by
  induction l with
  | nil => rfl
  | cons e es ih =>
    rw [lookupA, if_neg (by rw [h e (List.mem_cons_self e es)]; exact Bool.false_ne_true)]
    exact ih (fun x hx => h x (List.mem_cons_of_mem e hx))

theorem lookupA_append_left_none {α β : Type} [BEq α] {l1 l2 : List (α × β)} {k : α}
    (h : ∀ x ∈ l1, (x.1 == k) = false) : lookupA (l1 ++ l2) k = lookupA l2 k := by
  induction l1 with
  | nil => rfl
  | cons e es ih =>
    rw [List.cons_append, lookupA,
      if_neg (by rw [h e (List.mem_cons_self e es)]; exact Bool.false_ne_true)]
    exact ih (fun x hx => h x (List.mem_cons_of_mem e hx))

theorem lookupA_map_replace {α β : Type} [BEq α] [LawfulBEq α] (l : List (α × β)) (k : α)
    (v : β) (h : l.any (fun e => e.1 == k) = true) :
    lookupA (l.map (fun e => if e.1 == k then (k, v) else e)) k = some v := by
  induction l with
  | nil => simp at h
  | cons e es ih =>
    rw [List.map_cons]
    by_cases he : (e.1 == k) = true
    · rw [if_pos he, lookupA]
      simp
    · rw [if_neg he, lookupA, if_neg he]
      apply ih
      rw [List.any_cons] at h
      rcases Bool.or_eq_true_iff.mp h with h1 | h1
      · exact absurd h1 he
      · exact h1

theorem insertA_lookupA {α β : Type} [BEq α] [LawfulBEq α] (l : List (α × β)) (k : α) (v : β) :
    lookupA (insertA l k v) k = some v := by
  rw [insertA]
  by_cases hg : l.any (fun e => e.1 == k) = true
  · rw [if_pos hg]
    exact lookupA_map_replace l k v hg
  · rw [if_neg hg]
    have h' : ∀ x ∈ l, (x.1 == k) = false := by
      intro x hx
      cases hxk : (x.1 == k)
      · rfl
      · exact absurd (List.any_eq_true.mpr ⟨x, hx, hxk⟩) hg
    rw [lookupA_append_left_none h', lookupA]
    simp

theorem insertA_any_key {α β : Type} [BEq α] [LawfulBEq α] (l : List (α × β)) (k : α) (v : β) :
    (insertA l k v).any (fun e => e.1 == k) = true := by
  rw [insertA]
  by_cases hg : l.any (fun e => e.1 == k) = true
  · rw [if_pos hg]
    rw [List.any_eq_true] at hg ⊢
    obtain ⟨x, hx, hxk⟩ := hg
    refine ⟨(k, v), ?_, by simp⟩
    rw [List.mem_map]
    exact ⟨x, hx, by rw [if_pos hxk]⟩
  · rw [if_neg hg]
    rw [List.any_eq_true]
    exact ⟨(k, v), by simp, by simp⟩

theorem filter_key_not_pending {α β : Type} [BEq α] (l : List (α × β)) (k : α) :
    (l.filter (fun e => !(e.1 == k))).any (fun e => e.1 == k) = false := by
  cases hcon : (l.filter (fun e => !(e.1 == k))).any (fun e => e.1 == k)
  · rfl
  · exfalso
    rw [List.any_eq_true] at hcon
    obtain ⟨x, hx, hxk⟩ := hcon
    rw [List.mem_filter] at hx
    rw [hxk] at hx
    simp at hx

theorem lookupA_filter_key_none {α β : Type} [BEq α] (l : List (α × β)) (k : α) :
    lookupA (l.filter (fun e => !(e.1 == k))) k = none := by
  apply lookupA_eq_none
  intro x hx
  rw [List.mem_filter] at hx
  cases hxk : (x.1 == k)
  · rfl
  · exfalso
    rw [hxk] at hx
    simp at hx

theorem pairwise_lt_of_le_ne {l : List Subscription} (hle : l.Pairwise prioLE)
    (hne : l.Pairwise (fun a b => a.priority ≠ b.priority)) : l.Pairwise prioLT := by
  have hand := hle.and hne
  exact hand.imp (fun hab => Nat.lt_of_le_of_ne hab.1 hab.2)

/-- C1 (amended): restricted to ASCII topics and patterns of at most
255 characters — the largest domain on which the source's fixed-size
table returns at all — is_matching returns some true exactly when the
topic matches the pattern under glob semantics, equivalently when the
dynamic-programming recurrence dp accepts; outside that domain the
function panics instead of returning (see the counterexample). -/
theorem is_matching_decides_glob (t p : List Char)
    (ht : ∀ c ∈ t, c.utf8Size = 1) (hp : ∀ c ∈ p, c.utf8Size = 1)
    (h1 : t.length ≤ 255) (h2 : p.length ≤ 255) :
    is_matching t p = some true ↔ Matches t p := by
  rw [is_matching_eq_matchB ht hp h1 h2, Option.some_inj]
  exact matchB_iff

/-- Witness for C1: the five literal matching examples of the
specification, evaluated through the amended equivalence. -/
theorem is_matching_decides_glob_witness :
    is_matching "a".toList "*".toList = some true ∧
    is_matching "a".toList "b".toList = some false ∧
    is_matching "data.quotes.BINANCE".toList "data.*".toList = some true ∧
    is_matching "data.quotes.BINANCE".toList "data.*.BINANCE".toList = some true ∧
    is_matching "data.trades.BINANCE.ETHUSDT".toList "data.*.BINANCE.ETH*".toList = some true := by
  refine ⟨?_, ?_, ?_, ?_, ?_⟩
  · apply (is_matching_decides_glob _ _ (by decide) (by decide) (by decide) (by decide)).mpr
    rw [show ("*".toList) = ['*'] from by decide]
    exact matches_star_any _
  · have hne : ¬ Matches "a".toList "b".toList := by
      rw [show ("a".toList) = ['a'] from by decide, show ("b".toList) = ['b'] from by decide]
      intro hcon
      rw [cons_lit_iff (by decide) (by decide)] at hcon
      exact absurd hcon.1 (by decide)
    have hiff := is_matching_decides_glob "a".toList "b".toList
      (by decide) (by decide) (by decide) (by decide)
    have hb : is_matching "a".toList "b".toList = some (matchB "a".toList "b".toList) :=
      is_matching_eq_matchB (by decide) (by decide) (by decide) (by decide)
    have hmb : matchB "a".toList "b".toList = false := by
      cases hx : matchB "a".toList "b".toList
      · rfl
      · exact absurd (matchB_iff.mp hx) hne
    rw [hb, hmb]
  · apply (is_matching_decides_glob _ _ (by decide) (by decide) (by decide) (by decide)).mpr
    rw [show ("data.quotes.BINANCE".toList) = "data.".toList ++ "quotes.BINANCE".toList
          from by decide,
        show ("data.*".toList) = "data.".toList ++ ['*'] from by decide]
    exact matches_append (matches_lit_self (by decide)) (matches_star_any _)
  · apply (is_matching_decides_glob _ _ (by decide) (by decide) (by decide) (by decide)).mpr
    rw [show ("data.quotes.BINANCE".toList) =
          "data.".toList ++ ("quotes".toList ++ ".BINANCE".toList) from by decide,
        show ("data.*.BINANCE".toList) =
          "data.".toList ++ (['*'] ++ ".BINANCE".toList) from by decide]
    exact matches_append (matches_lit_self (by decide))
      (matches_append (matches_star_any _) (matches_lit_self (by decide)))
  · apply (is_matching_decides_glob _ _ (by decide) (by decide) (by decide) (by decide)).mpr
    rw [show ("data.trades.BINANCE.ETHUSDT".toList) =
          "data.".toList ++ ("trades".toList ++ (".BINANCE.ETH".toList ++ "USDT".toList))
          from by decide,
        show ("data.*.BINANCE.ETH*".toList) =
          "data.".toList ++ (['*'] ++ (".BINANCE.ETH".toList ++ ['*'])) from by decide]
    exact matches_append (matches_lit_self (by decide))
      (matches_append (matches_star_any _)
        (matches_append (matches_lit_self (by decide)) (matches_star_any _)))

set_option maxRecDepth 8000 in
/-- Counterexample for C1 as stated: for a 256-character topic the
glob semantics accept, but is_matching does not return true — the
fixed-size table is indexed out of bounds and the call panics. -/
theorem is_matching_glob_counterexample :
    is_matching (List.replicate 256 'a') ['*'] ≠ some true ∧
    Matches (List.replicate 256 'a') ['*'] := by
  constructor
  · have h0 : is_matching (List.replicate 256 'a') ['*'] = none := by decide
    rw [h0]
    simp
  · exact matches_star_any _

set_option maxRecDepth 8000 in
/-- C2: refuted by the code.  is_matching stacks a fixed 256 x 256
table and finally reads the cell indexed by the byte lengths of its
inputs, so every call whose topic or pattern is 256 bytes or longer
indexes out of bounds and panics: the bound is real, the claim's
arbitrary-length totality does not hold. -/
theorem is_matching_fixed_table_panics :
    is_matching (List.replicate 256 'a') ['*'] = none ∧
    is_matching ['a'] (List.replicate 256 '?') = none := by
  exact ⟨by decide, by decide⟩

/-- C3 (amended): on every reachable state whose stored subscription
topics, together with the queried pattern, are at most 255 bytes —
exactly the domain on which every matcher call inside the scan
returns — matching_subscriptions returns some list: the union,
deduplicated by the (topic, handler id) key, of the stored
subscriptions and the cached-pattern subscriptions on which the
source's matcher yields true, sorted by ascending priority; and when
the stored subscriptions carry pairwise distinct priorities that list
is one fixed sequence, the same for any insertion order (any
permutation of the subscription entries) and hence for any map
iteration order.  Outside that domain the call panics instead of
returning (see the counterexample). -/
theorem matching_subscriptions_spec (bus bus2 : MessageBus) (pattern : List Char)
    (h1 : Reachable bus) (h2 : Reachable bus2)
    (hperm : bus.subscriptions.Perm bus2.subscriptions)
    (hdist : bus.subscriptions.Pairwise (fun a b => a.1.priority ≠ b.1.priority))
    (hplen : byteLen pattern ≤ 255)
    (htlen : ∀ e ∈ bus.subscriptions, byteLen e.1.topic ≤ 255) :
    ∃ out : List Subscription,
      (bus.matching_subscriptions pattern).1 = some out ∧
      (∀ s : Subscription, s ∈ out ↔
        ((s ∈ bus.subscriptions.map Prod.fst ∧ is_matching s.topic pattern = some true) ∨
         (∃ pr ∈ bus.patterns, s ∈ pr.2 ∧ is_matching s.topic pattern = some true))) ∧
      out.Sorted prioLE ∧
      (bus2.matching_subscriptions pattern).1 = some out := by
  have hsafe1 : ∀ s ∈ bus.subscriptions.map Prod.fst, byteLen s.topic ≤ 255 := by
    intro s hs
    rw [List.mem_map] at hs
    obtain ⟨e, he, rfl⟩ := hs
    exact htlen e he
  have hsafe2 : ∀ s ∈ bus2.subscriptions.map Prod.fst, byteLen s.topic ≤ 255 := by
    intro s hs
    rw [List.mem_map] at hs
    obtain ⟨e, he, rfl⟩ := hs
    exact htlen e (hperm.mem_iff.mpr he)
  have hfm1 := filterMatchingM_eq_of_safe hplen hsafe1
  have hfm2 := filterMatchingM_eq_of_safe hplen hsafe2
  have hLperm : ((bus.subscriptions.map Prod.fst).filter
        (fun s => (is_matching s.topic pattern).getD false)).Perm
      ((bus2.subscriptions.map Prod.fst).filter
        (fun s => (is_matching s.topic pattern).getD false)) :=
    (hperm.map Prod.fst).filter _
  have hd1 : ((bus.subscriptions.map Prod.fst).filter
        (fun s => (is_matching s.topic pattern).getD false)).Pairwise
      (fun a b => a.priority ≠ b.priority) := by
    refine List.Pairwise.sublist (List.filter_sublist _) ?_
    rw [List.pairwise_map]
    exact hdist
  have hout : (sortByPriority ((bus.subscriptions.map Prod.fst).filter
        (fun s => (is_matching s.topic pattern).getD false))).Perm
      (sortByPriority ((bus2.subscriptions.map Prod.fst).filter
        (fun s => (is_matching s.topic pattern).getD false))) :=
    ((List.perm_insertionSort prioLE _).trans hLperm).trans
      (List.perm_insertionSort prioLE _).symm
  have hd1s : (sortByPriority ((bus.subscriptions.map Prod.fst).filter
        (fun s => (is_matching s.topic pattern).getD false))).Pairwise
      (fun a b => a.priority ≠ b.priority) :=
    ((List.perm_insertionSort prioLE _).pairwise_iff (fun hab => Ne.symm hab)).mpr hd1
  have hd2s : (sortByPriority ((bus2.subscriptions.map Prod.fst).filter
        (fun s => (is_matching s.topic pattern).getD false))).Pairwise
      (fun a b => a.priority ≠ b.priority) :=
    (hout.pairwise_iff (fun hab => Ne.symm hab)).mp hd1s
  have heq : sortByPriority ((bus.subscriptions.map Prod.fst).filter
        (fun s => (is_matching s.topic pattern).getD false)) =
      sortByPriority ((bus2.subscriptions.map Prod.fst).filter
        (fun s => (is_matching s.topic pattern).getD false)) :=
    List.eq_of_perm_of_sorted hout
      (pairwise_lt_of_le_ne (List.sorted_insertionSort prioLE _) hd1s)
      (pairwise_lt_of_le_ne (List.sorted_insertionSort prioLE _) hd2s)
  refine ⟨sortByPriority ((bus.subscriptions.map Prod.fst).filter
      (fun s => (is_matching s.topic pattern).getD false)), ?_, ?_, ?_, ?_⟩
  · rw [matching_subscriptions_eq_scan h1 pattern, hfm1]
    rfl
  · intro s
    rw [sortByPriority]
    rw [(List.perm_insertionSort prioLE _).mem_iff]
    rw [List.mem_filter]
    simp [(reachable_inv h1).1, option_getD_false_iff]
  · exact List.sorted_insertionSort prioLE _
  · rw [matching_subscriptions_eq_scan h2 pattern, hfm2]
    exact congrArg some heq.symm

/-- Witness for C3: three handlers on one topic with priorities 5, 1, 3
subscribed in two different orders give permuted subscription maps, and
matching_subscriptions returns some list, the identical one for both
orders. -/
theorem matching_subscriptions_spec_witness :
    ((((MessageBus.new "trader-1" none).subscribe ['t'] ⟨"h5"⟩ (some 5)).subscribe
        ['t'] ⟨"h1"⟩ (some 1)).subscribe ['t'] ⟨"h3"⟩ (some 3)).subscriptions.Perm
      ((((MessageBus.new "trader-1" none).subscribe ['t'] ⟨"h1"⟩ (some 1)).subscribe
        ['t'] ⟨"h3"⟩ (some 3)).subscribe ['t'] ⟨"h5"⟩ (some 5)).subscriptions ∧
    ((((MessageBus.new "trader-1" none).subscribe ['t'] ⟨"h5"⟩ (some 5)).subscribe
        ['t'] ⟨"h1"⟩ (some 1)).subscribe ['t'] ⟨"h3"⟩ (some 3)).subscriptions.Pairwise
      (fun a b => a.1.priority ≠ b.1.priority) ∧
    (∃ out : List Subscription,
      (((((MessageBus.new "trader-1" none).subscribe ['t'] ⟨"h5"⟩ (some 5)).subscribe
        ['t'] ⟨"h1"⟩ (some 1)).subscribe ['t'] ⟨"h3"⟩ (some 3)).matching_subscriptions
        ['t']).1 = some out ∧
      (∀ s : Subscription, s ∈ out ↔
        ((s ∈ ((((MessageBus.new "trader-1" none).subscribe ['t'] ⟨"h5"⟩
            (some 5)).subscribe ['t'] ⟨"h1"⟩ (some 1)).subscribe ['t'] ⟨"h3"⟩
            (some 3)).subscriptions.map Prod.fst ∧
          is_matching s.topic ['t'] = some true) ∨
         (∃ pr ∈ ((((MessageBus.new "trader-1" none).subscribe ['t'] ⟨"h5"⟩
            (some 5)).subscribe ['t'] ⟨"h1"⟩ (some 1)).subscribe ['t'] ⟨"h3"⟩
            (some 3)).patterns, s ∈ pr.2 ∧ is_matching s.topic ['t'] = some true))) ∧
      out.Sorted prioLE ∧
      (((((MessageBus.new "trader-1" none).subscribe ['t'] ⟨"h1"⟩ (some 1)).subscribe
        ['t'] ⟨"h3"⟩ (some 3)).subscribe ['t'] ⟨"h5"⟩ (some 5)).matching_subscriptions
        ['t']).1 = some out) := by
  refine ⟨by decide, by decide, ?_⟩
  exact matching_subscriptions_spec _ _ ['t']
    (Reachable.subscribe _ _ _ (Reachable.subscribe _ _ _
      (Reachable.subscribe _ _ _ (Reachable.new _ _))))
    (Reachable.subscribe _ _ _ (Reachable.subscribe _ _ _
      (Reachable.subscribe _ _ _ (Reachable.new _ _))))
    (by decide) (by decide) (by decide) (by decide)

set_option maxRecDepth 8000 in
/-- Counterexample for C3 as stated: a 256-byte topic can be subscribed
(the empty pattern cache means subscribe performs no matcher call),
after which every matching_subscriptions call indexes the fixed table
out of bounds and panics instead of returning a sequence; a 256-byte
pattern likewise panics as soon as any subscription exists. -/
theorem matching_subscriptions_panic_counterexample :
    (((MessageBus.new "trader-1" none).subscribe (List.replicate 256 'a') ⟨"h"⟩
        none).matching_subscriptions ['t']).1 = none ∧
    (((MessageBus.new "trader-1" none).subscribe ['b'] ⟨"h"⟩
        none).matching_subscriptions (List.replicate 256 '?')).1 = none := by
  exact ⟨by decide, by decide⟩

/-- C4: in every reachable state every entry of the pattern cache is
exactly the set of current subscriptions whose topic matches the entry
key, and after any unsubscribe the removed key is in no cached pattern
list.  Both hold because no public operation ever inserts a cache key,
so the cache is empty in every reachable state. -/
theorem pattern_cache_exact {bus : MessageBus} (h : Reachable bus) :
    (∀ pr ∈ bus.patterns, ∀ s : Subscription,
      s ∈ pr.2 ↔ (s ∈ bus.subscriptions.map Prod.fst ∧ matchB s.topic pr.1 = true)) ∧
    (∀ (topic : List Char) (handler : MessageHandler),
      ∀ pr ∈ (bus.unsubscribe topic handler).patterns,
        ∀ s ∈ pr.2, sameKey s (Subscription.new topic handler none) = false) := by
  have hp := (reachable_inv h).1
  constructor
  · intro pr hpr
    rw [hp] at hpr
    exact absurd hpr (List.not_mem_nil pr)
  · intro topic handler pr hpr
    have hup : (bus.unsubscribe topic handler).patterns = [] := by
      simpa [MessageBus.unsubscribe] using hp
    rw [hup] at hpr
    exact absurd hpr (List.not_mem_nil pr)

/-- Witness for C4 at a concrete reachable state with one subscription
and one unsubscribed key. -/
theorem pattern_cache_exact_witness :
    (∀ pr ∈ ((MessageBus.new "trader-1" none).subscribe ['t'] ⟨"h"⟩ none).patterns,
      ∀ s : Subscription, s ∈ pr.2 ↔
        (s ∈ ((MessageBus.new "trader-1" none).subscribe ['t'] ⟨"h"⟩
          none).subscriptions.map Prod.fst ∧ matchB s.topic pr.1 = true)) ∧
    (∀ (topic : List Char) (handler : MessageHandler),
      ∀ pr ∈ (((MessageBus.new "trader-1" none).subscribe ['t'] ⟨"h"⟩
          none).unsubscribe topic handler).patterns,
        ∀ s ∈ pr.2, sameKey s (Subscription.new topic handler none) = false) :=
  pattern_cache_exact (Reachable.subscribe _ _ _ (Reachable.new _ _))

/-- C5 (amended): subscribe followed by unsubscribe with the identical
key removes all trace — has_subscribers of that topic returns false
and topics() no longer lists it — provided no other subscription
shares the topic (the original proviso, which keeps the topic out of
topics()) and the source's matcher returns false, rather than matching
or panicking, on every other subscription's topic against the topic as
pattern: a remaining topic matching the pattern keeps has_subscribers
true (see the counterexample), and a probe overrunning the fixed
256 x 256 table panics instead of returning. -/
theorem subscribe_unsubscribe_no_trace (bus : MessageBus) (topic : List Char)
    (handler : MessageHandler) (priority : Option Nat)
    (hshare : ∀ e ∈ bus.subscriptions,
      sameKey e.1 (Subscription.new topic handler none) = false → e.1.topic ≠ topic)
    (hother : ∀ e ∈ bus.subscriptions,
      sameKey e.1 (Subscription.new topic handler none) = false →
      is_matching e.1.topic topic = some false) :
    ((bus.subscribe topic handler priority).unsubscribe topic handler).has_subscribers
      topic = some false ∧
    topic ∉ ((bus.subscribe topic handler priority).unsubscribe topic handler).topics := by
  have hmem : ∀ e ∈ ((bus.subscribe topic handler priority).unsubscribe
      topic handler).subscriptions,
      e ∈ bus.subscriptions ∧
      sameKey e.1 (Subscription.new topic handler none) = false := by
    intro e he
    simp only [MessageBus.unsubscribe, List.mem_filter] at he
    obtain ⟨he1, he2⟩ := he
    have hkey : sameKey e.1 (Subscription.new topic handler none) = false := by
      simpa using he2
    refine ⟨?_, hkey⟩
    by_cases hg : bus.subscriptions.any
        (fun x => sameKey x.1 (Subscription.new topic handler priority)) = true
    · rw [subscribe_of_key_present hg] at he1
      exact he1
    · have hg' : bus.subscriptions.any
          (fun x => sameKey x.1 (Subscription.new topic handler priority)) = false := by
        cases hx : bus.subscriptions.any
            (fun x => sameKey x.1 (Subscription.new topic handler priority))
        · rfl
        · exact absurd hx hg
      rw [subscribe_subscriptions hg'] at he1
      rcases List.mem_append.mp he1 with hin | hin
      · exact hin
      · exfalso
        simp only [List.mem_singleton] at hin
        rw [hin] at hkey
        simp [sameKey, Subscription.new] at hkey
  constructor
  · rw [MessageBus.has_subscribers]
    apply anyMatchingM_eq_false
    intro s hs
    rw [List.mem_map] at hs
    obtain ⟨e, he, rfl⟩ := hs
    exact hother e (hmem e he).1 (hmem e he).2
  · rw [MessageBus.topics]
    intro hcon
    rw [List.mem_map] at hcon
    obtain ⟨e, he, htop⟩ := hcon
    exact hshare e (hmem e he).1 (hmem e he).2 htop

/-- Witness for C5 at a concrete bus: a single subscription created and
removed leaves no trace. -/
theorem subscribe_unsubscribe_no_trace_witness :
    (((MessageBus.new "trader-1" none).subscribe ['t'] ⟨"h"⟩
        (some 1)).unsubscribe ['t'] ⟨"h"⟩).has_subscribers ['t'] = some false ∧
    ['t'] ∉ (((MessageBus.new "trader-1" none).subscribe ['t'] ⟨"h"⟩
        (some 1)).unsubscribe ['t'] ⟨"h"⟩).topics :=
  subscribe_unsubscribe_no_trace (MessageBus.new "trader-1" none) ['t'] ⟨"h"⟩ (some 1)
    (by decide) (by decide)

/-- Counterexample for C5 as stated: in a bus holding one other
subscription on the literal topic "ab" — so no other subscription
shares the topic "a*" — subscribing and then unsubscribing
("a*", h1) leaves has_subscribers("a*") returning true, because the
remaining topic "ab" matches the pattern "a*". -/
theorem subscribe_unsubscribe_counterexample :
    (∀ e ∈ ((MessageBus.new "trader-1" none).subscribe ['a', 'b'] ⟨"h2"⟩
        none).subscriptions, e.1.topic ≠ ['a', '*']) ∧
    ((((MessageBus.new "trader-1" none).subscribe ['a', 'b'] ⟨"h2"⟩
        none).subscribe ['a', '*'] ⟨"h1"⟩ none).unsubscribe ['a', '*']
        ⟨"h1"⟩).has_subscribers ['a', '*'] = some true := by
  constructor
  · decide
  · have hsubs : ((((MessageBus.new "trader-1" none).subscribe ['a', 'b'] ⟨"h2"⟩
        none).subscribe ['a', '*'] ⟨"h1"⟩ none).unsubscribe ['a', '*']
        ⟨"h1"⟩).subscriptions = [(Subscription.new ['a', 'b'] ⟨"h2"⟩ none, [])] := by
      decide
    have hm : is_matching ['a', 'b'] ['a', '*'] = some true := by
      rw [is_matching_eq_matchB (by decide) (by decide) (by decide) (by decide)]
      rw [show matchB ['a', 'b'] ['a', '*'] = true from
        matchB_iff.mpr (Matches.lit (by decide) (by decide) (matches_star_any ['b']))]
    rw [MessageBus.has_subscribers, hsubs]
    simp only [List.map_cons, List.map_nil]
    rw [anyMatchingM]
    rw [show (Subscription.new ['a', 'b'] ⟨"h2"⟩ none).topic = ['a', 'b'] from rfl]
    rw [hm]

/-- C6 (amended): request_handler on an unregistered endpoint returns
none and leaves the whole bus state — in particular the correlation
index and every is_pending_response answer — unchanged (so
is_pending_response of the request id is false whenever it was not
already pending, but retains its prior value in general, see the
counterexample); on a registered endpoint it returns that endpoint's
handler and makes the request id pending until response_handler
removes and returns the handler, after which the id is no longer
pending and a second response_handler call returns none. -/
theorem request_response_protocol (bus : MessageBus) (endpoint : String)
    (request_id : Nat) :
    (bus.is_registered endpoint = false →
      (bus.request_handler endpoint request_id).1 = none ∧
      (bus.request_handler endpoint request_id).2 = bus) ∧
    (∀ hh : MessageHandler, lookupA bus.endpoints endpoint = some hh →
      (bus.request_handler endpoint request_id).1 = some hh ∧
      ((bus.request_handler endpoint request_id).2).is_pending_response request_id = true ∧
      (((bus.request_handler endpoint request_id).2).response_handler request_id).1 =
        some hh ∧
      ((((bus.request_handler endpoint request_id).2).response_handler
        request_id).2).is_pending_response request_id = false ∧
      (((((bus.request_handler endpoint request_id).2).response_handler
        request_id).2).response_handler request_id).1 = none) := by
  constructor
  · intro hreg
    rw [MessageBus.is_registered] at hreg
    have hnone : lookupA bus.endpoints endpoint = none :=
      lookupA_eq_none (any_eq_false_forall hreg)
    simp only [MessageBus.request_handler, hnone]
    exact ⟨trivial, trivial⟩
  · intro hh hl
    simp only [MessageBus.request_handler, hl]
    refine ⟨trivial, ?_, ?_, ?_, ?_⟩
    · exact insertA_any_key bus.correlation_index request_id hh
    · exact insertA_lookupA bus.correlation_index request_id hh
    · exact filter_key_not_pending _ request_id
    · exact lookupA_filter_key_none _ request_id

/-- Witness for C6: a concrete endpoint registered as "alpha" goes
through the whole request/response cycle, and a request to the
unregistered endpoint "beta" is refused without any state change. -/
theorem request_response_protocol_witness :
    (lookupA ((MessageBus.new "trader-1" none).register "alpha" ⟨"h1"⟩).endpoints
      "alpha" = some ⟨"h1"⟩) ∧
    ((((MessageBus.new "trader-1" none).register "alpha" ⟨"h1"⟩).request_handler
        "alpha" 7).1 = some ⟨"h1"⟩ ∧
      ((((MessageBus.new "trader-1" none).register "alpha" ⟨"h1"⟩).request_handler
        "alpha" 7).2).is_pending_response 7 = true ∧
      (((((MessageBus.new "trader-1" none).register "alpha" ⟨"h1"⟩).request_handler
        "alpha" 7).2).response_handler 7).1 = some ⟨"h1"⟩ ∧
      ((((((MessageBus.new "trader-1" none).register "alpha" ⟨"h1"⟩).request_handler
        "alpha" 7).2).response_handler 7).2).is_pending_response 7 = false ∧
      (((((((MessageBus.new "trader-1" none).register "alpha" ⟨"h1"⟩).request_handler
        "alpha" 7).2).response_handler 7).2).response_handler 7).1 = none) ∧
    (((MessageBus.new "trader-1" none).register "alpha" ⟨"h1"⟩).is_registered
      "beta" = false ∧
      ((((MessageBus.new "trader-1" none).register "alpha" ⟨"h1"⟩).request_handler
        "beta" 9).1 = none ∧
        ((((MessageBus.new "trader-1" none).register "alpha" ⟨"h1"⟩).request_handler
        "beta" 9).2) = (MessageBus.new "trader-1" none).register "alpha" ⟨"h1"⟩)) := by
  refine ⟨by decide, ?_, by decide, ?_⟩
  · exact (request_response_protocol _ "alpha" 7).2 ⟨"h1"⟩ (by decide)
  · exact (request_response_protocol _ "beta" 9).1 (by decide)

/-- Counterexample for C6 as stated: with request id 7 already pending
from endpoint "alpha", a request_handler call for the unregistered
endpoint "beta" with the same id returns none and mutates nothing, yet
is_pending_response 7 is true, not false. -/
theorem request_handler_pending_counterexample :
    ((((MessageBus.new "trader-1" none).register "alpha" ⟨"h1"⟩).request_handler
      "alpha" 7).2).is_registered "beta" = false ∧
    (((((MessageBus.new "trader-1" none).register "alpha" ⟨"h1"⟩).request_handler
      "alpha" 7).2).request_handler "beta" 7).1 = none ∧
    ((((((MessageBus.new "trader-1" none).register "alpha" ⟨"h1"⟩).request_handler
      "alpha" 7).2).request_handler "beta" 7).2).is_pending_response 7 = true := by
  exact ⟨by decide, by decide, by decide⟩

/-- C7: subscribing twice with the same (topic, handler id) key is
idempotent — the second call, even with a different priority, returns
a state identical to the one after the first call, so the stored
priority and the subscription count are untouched. -/
theorem subscribe_idempotent (bus : MessageBus) (topic : List Char)
    (handler : MessageHandler) (p1 p2 : Option Nat) :
    (bus.subscribe topic handler p1).subscribe topic handler p2 =
      bus.subscribe topic handler p1 := by
  apply subscribe_of_key_present
  by_cases hg : bus.subscriptions.any
      (fun e => sameKey e.1 (Subscription.new topic handler p1)) = true
  · rw [subscribe_of_key_present hg]
    exact hg
  · have hg' : bus.subscriptions.any
        (fun e => sameKey e.1 (Subscription.new topic handler p1)) = false := by
      cases hx : bus.subscriptions.any
          (fun e => sameKey e.1 (Subscription.new topic handler p1))
      · rfl
      · exact absurd hx hg
    rw [subscribe_subscriptions hg', List.any_append]
    apply Bool.or_eq_true_iff.mpr
    right
    simp [sameKey, Subscription.new]

/-- C8: refuted by the code.  subscribe returns no value at all — in
the embedding its entire result is the successor state — so a
duplicate call is observable only as the unchanged state, never
through a boolean return: here the second, duplicate subscribe call
yields a result identical to the state it was called on. -/
theorem subscribe_returns_no_boolean :
    ((MessageBus.new "trader-1" none).subscribe ['t'] ⟨"h"⟩ (some 0)).subscribe
        ['t'] ⟨"h"⟩ (some 0) =
      (MessageBus.new "trader-1" none).subscribe ['t'] ⟨"h"⟩ (some 0) := by
  decide

/-- C9: matching_subscriptions takes the bus by mutable borrow but its
body only reads, so the state it hands back is the input state; the
remaining queries (endpoints(), topics(), has_subscribers,
is_subscribed, is_registered, is_pending_response) borrow immutably and
are embedded as pure functions of the state, unable to mutate by
construction. -/
theorem matching_subscriptions_pure (bus : MessageBus) (pattern : List Char) :
    (bus.matching_subscriptions pattern).2 = bus := rfl

/-- C10: in every reachable state the pattern cache has no entries, the
matched-patterns list stored with every subscription is empty, and
matching_subscriptions degenerates to the priority-sorted linear scan
of the subscription set by the source's matcher (panic included: both
sides run the same per-subscription is_matching calls). -/
theorem pattern_cache_never_populated {bus : MessageBus} (pattern : List Char)
    (h : Reachable bus) :
    bus.patterns = [] ∧
    bus.subscriptions.all (fun e => e.2.isEmpty) = true ∧
    (bus.matching_subscriptions pattern).1 =
      Option.map sortByPriority
        (filterMatchingM pattern (bus.subscriptions.map Prod.fst)) := by
  have hinv := reachable_inv h
  refine ⟨hinv.1, ?_, matching_subscriptions_eq_scan h pattern⟩
  rw [List.all_eq_true]
  intro e he
  rw [hinv.2.1 e he]
  rfl

/-- Witness for C10 at a concrete reachable state built by two
subscribes and one unsubscribe. -/
theorem pattern_cache_never_populated_witness :
    ((((MessageBus.new "trader-1" none).subscribe ['t'] ⟨"h1"⟩ (some 1)).subscribe
      ['u'] ⟨"h2"⟩ none).unsubscribe ['u'] ⟨"h2"⟩).patterns = [] ∧
    ((((MessageBus.new "trader-1" none).subscribe ['t'] ⟨"h1"⟩ (some 1)).subscribe
      ['u'] ⟨"h2"⟩ none).unsubscribe ['u'] ⟨"h2"⟩).subscriptions.all
      (fun e => e.2.isEmpty) = true ∧
    (((((MessageBus.new "trader-1" none).subscribe ['t'] ⟨"h1"⟩ (some 1)).subscribe
      ['u'] ⟨"h2"⟩ none).unsubscribe ['u'] ⟨"h2"⟩).matching_subscriptions ['t']).1 =
      Option.map sortByPriority (filterMatchingM ['t']
        (((((MessageBus.new "trader-1" none).subscribe ['t'] ⟨"h1"⟩ (some 1)).subscribe
          ['u'] ⟨"h2"⟩ none).unsubscribe ['u'] ⟨"h2"⟩).subscriptions.map Prod.fst)) :=
  pattern_cache_never_populated ['t']
    (Reachable.unsubscribe _ _ (Reachable.subscribe _ _ _
      (Reachable.subscribe _ _ _ (Reachable.new _ _))))

end Msgbus
